import Mathlib

/-
Verification of the IMS inventory/transaction-ledger application.

The application keeps two in-memory tables — an inventory table (one row per
book title) and a transaction log (newest-first list of postings) — and offers
a posting operation (receive / ship / return), a dual local/remote persistence
layer, and several pure report views.  The definitions below are a shallow
embedding of that code: DataFrames become lists of records, the posting branch
becomes `post`, the persistence functions `load_data` / `save_data` become
pure functions over an explicit environment describing the outcomes of the
file and network operations they perform.
-/

set_option autoImplicit false

namespace IMS

/-- A row of the inventory table (columns 책 이름, 가격, ISBN, 현재 수량,
안전 재고 of 출판부_재고자산.csv). -/
structure InventoryItem where
  title : String
  unit_price : Int
  isbn : String
  on_hand_quantity : Int
  safety_stock_threshold : Int
deriving DecidableEq, Repr

/-- The transaction kind (구분 column): 입고 = RECEIVE, 출고 = SHIP,
반품 = RETURN. -/
inductive TxKind where
  | RECEIVE
  | SHIP
  | RETURN
deriving DecidableEq, Repr

/-- A row of the transaction log (columns 일시, 거래처, 책 이름, 구분, 수량,
가격 of 거래기록.csv). -/
structure TransactionRecord where
  timestamp : String
  client_name : String
  title : String
  kind : TxKind
  quantity : Int
  unit_price : Int
deriving DecidableEq, Repr

/-- The in-memory session state: the two tables held in
`st.session_state` (`df_inventory` and `df_history`). -/
structure PostState where
  inventory : List InventoryItem
  history : List TransactionRecord
deriving DecidableEq, Repr

/-- The ways the posting branch can abandon the operation without mutating
anything: empty 거래처 field, a title not present in the inventory table, or a
SHIP exceeding the on-hand quantity (재고가 부족합니다). -/
inductive PostError where
  | EmptyClient
  | UnknownTitle
  | InsufficientStock
deriving DecidableEq, Repr

/-- Positional index of the first inventory row whose 책 이름 equals `t`:
the embedding of `df_inventory[df_inventory[책 이름] == selected_book].index[0]`. -/
def firstMatchIdx (inv : List InventoryItem) (t : String) : Option Nat :=
  match inv with
  | [] => none
  | r :: rest =>
    if r.title == t then some 0 else (firstMatchIdx rest t).map (· + 1)

/-- The first inventory row whose title equals `t` (the row the posting
branch reads with `.at[book_idx, ...]`). -/
def lookupTitle (inv : List InventoryItem) (t : String) : Option InventoryItem :=
  match firstMatchIdx inv t with
  | some i => inv.get? i
  | none => none

/-- The quantity arithmetic of the posting branch: 입고 and 반품 add,
출고 subtracts but is rejected with 재고가 부족합니다 (and `st.stop()`)
when `current_qty < quantity`. -/
def computeNewQty (kind : TxKind) (current quantity : Int) : Except PostError Int :=
  match kind with
  | .RECEIVE => .ok (current + quantity)
  | .SHIP =>
    if current < quantity then .error .InsufficientStock
    else .ok (current - quantity)
  | .RETURN => .ok (current + quantity)

/-- The 입출고 입력 posting branch.  On success it returns the new session
state together with the before/after quantity pair shown in the
success message (`current_qty -> new_qty`); on failure nothing is mutated.
The new state has the matched row's 현재 수량 overwritten with `new_qty`
and a fresh record — stamped `now`, with 가격 copied from the item —
prepended to the history (`pd.concat([new_record, df_history])`). -/
def post (st : PostState) (kind : TxKind) (client : String) (title : String)
    (quantity : Int) (now : String) : Except PostError (PostState × Int × Int) :=
  if client = "" then .error .EmptyClient
  else
    match firstMatchIdx st.inventory title with
    | none => .error .UnknownTitle
    | some i =>
      match st.inventory.get? i with
      | none => .error .UnknownTitle
      | some r =>
        match computeNewQty kind r.on_hand_quantity quantity with
        | .error e => .error e
        | .ok newQty =>
          .ok (⟨st.inventory.set i { r with on_hand_quantity := newQty },
                ⟨now, client, title, kind, quantity, r.unit_price⟩ :: st.history⟩,
               r.on_hand_quantity, newQty)

/-- One user-submitted posting form: 거래 유형, 거래처, 책 이름, 수량 and the
wall-clock timestamp assigned when the form is processed. -/
structure PostingInput where
  kind : TxKind
  client : String
  title : String
  quantity : Int
  now : String
deriving DecidableEq, Repr

/-- Process one submitted form: on success the session state is replaced by
the mutated tables, on any error (`st.warning` / `st.error` + `st.stop()`)
the session state is left untouched. -/
def applyPosting (st : PostState) (p : PostingInput) : PostState :=
  match post st p.kind p.client p.title p.quantity p.now with
  | .ok (st', _, _) => st'
  | .error _ => st

/-- Replay a sequence of submitted forms against an initial session state. -/
def replay (st : PostState) (ps : List PostingInput) : PostState :=
  ps.foldl applyPosting st

/-- Sum of the 수량 column over the log records of kind `k` for title `t`. -/
def sumKindTitle (log : List TransactionRecord) (k : TxKind) (t : String) : Int :=
  match log with
  | [] => 0
  | r :: rest =>
    (if r.title == t && r.kind == k then r.quantity else 0) + sumKindTitle rest k t

/-- The signed contribution of one log record to its title's stock:
RECEIVE and RETURN add the quantity, SHIP subtracts it. -/
def signedQty (r : TransactionRecord) : Int :=
  match r.kind with
  | .SHIP => -r.quantity
  | _ => r.quantity

/-- Net stock movement recorded in the log for title `t`. -/
def netForTitle (log : List TransactionRecord) (t : String) : Int :=
  match log with
  | [] => 0
  | r :: rest => (if r.title == t then signedQty r else 0) + netForTitle rest t

/-- The 알림 view: the inventory rows with 현재 수량 <= 안전 재고, in table
iteration order. -/
def lowStockAlert (inv : List InventoryItem) : List InventoryItem :=
  inv.filter (fun r => decide (r.on_hand_quantity ≤ r.safety_stock_threshold))

/-- Sum of the 수량 column over the log records of client `c` and kind `k`
(one cell of `df_history.groupby([거래처, 구분])[수량].sum().unstack(fill_value=0)`). -/
def sumKindClient (log : List TransactionRecord) (c : String) (k : TxKind) : Int :=
  match log with
  | [] => 0
  | r :: rest =>
    (if r.client_name == c && r.kind == k then r.quantity else 0) + sumKindClient rest c k

/-- The distinct client names appearing in the log: the row index of the
grouped table of the 거래처별 반품률 view.  (pandas sorts the group keys;
the view's claims are order-independent, so first-occurrence order is kept
here.) -/
def clientsOf (log : List TransactionRecord) : List String :=
  match log with
  | [] => []
  | r :: rest =>
    let cs := clientsOf rest
    if r.client_name ∈ cs then cs else r.client_name :: cs

/-- One displayed row of the 거래처별 반품률 table: client, 출고 sum, 반품
sum, and 반품률(%) computed as 반품/출고*100 when the 출고 sum is positive
and as 0 otherwise (the `else 0` branch of the lambda). -/
def returnRateRow (log : List TransactionRecord) (c : String) : String × Int × Int × Rat :=
  let ship := sumKindClient log c .SHIP
  let ret := sumKindClient log c .RETURN
  (c, ship, ret,
   if 0 < ship then (ret : Rat) / (ship : Rat) * 100 else 0)

/-- The 거래처별 반품률 table (tab3 of 리포트 및 분석): rendered only when
the 출고 column exists after the unstack, i.e. when some log record has kind
SHIP; it then has one row per client of the log. -/
def returnRateTable (log : List TransactionRecord) : List (String × Int × Int × Rat) :=
  if log.any (fun r => r.kind == TxKind.SHIP) then
    (clientsOf log).map (returnRateRow log)
  else []

/-- The example rows seeded into a fresh inventory table by `load_data`. -/
def seedInventory : List InventoryItem :=
  [⟨"인하의 역사", 15000, "979-11-87", 50, 10⟩,
   ⟨"파이썬 정복", 25000, "979-11-99", 5, 10⟩]

/-- Failure of `pd.read_csv` on a local file that exists. -/
inductive ParseError where
  | corrupt (msg : String)
deriving DecidableEq, Repr

deriving instance DecidableEq for Except

/-- State of one of the two local CSV files as `load_data` finds it: absent
(`os.path.exists` false), or present with the outcome of parsing it. -/
inductive LocalFile (α : Type) where
  | absent
  | present (parsed : Except ParseError α)
deriving DecidableEq, Repr

/-- `true` exactly when the local file is present but unparseable — the one
condition under which `load_data` propagates an exception. -/
def localCorrupt {α : Type} : LocalFile α → Bool
  | .present (.error _) => true
  | _ => false

/-- The environment `load_data` reads.  A `remote*` field is `some t` when
the GitHub blob for that table is fetched and parsed successfully, and `none`
for every other outcome — GitHub mode off, file absent in the repository,
network error, or parse error — because the bare `except: pass` around each
fetch collapses all of those into the same fall-through. -/
structure LoadEnv where
  remoteInv : Option (List InventoryItem)
  remoteHist : Option (List TransactionRecord)
  localInv : LocalFile (List InventoryItem)
  localHist : LocalFile (List TransactionRecord)
deriving DecidableEq, Repr

/-- The fallback chain `load_data` runs for one table: remote content if the
fetch succeeded, otherwise the local file (whose parse failure propagates),
otherwise the seeded default. -/
def loadTable {α : Type} (remote : Option α) (loc : LocalFile α) (seed : α) :
    Except ParseError α :=
  match remote with
  | some t => .ok t
  | none =>
    match loc with
    | .absent => .ok seed
    | .present parsed => parsed

/-- `load_data`: each table falls through remote → local → default
independently; the inventory default is the seeded example table, the history
default is an empty log.  The inventory table is processed first, so an
exception raised by its local parse surfaces before the history table is
read, exactly as in the source. -/
def load_data (env : LoadEnv) :
    Except ParseError (List InventoryItem × List TransactionRecord) :=
  match loadTable env.remoteInv env.localInv seedInventory with
  | .error e => .error e
  | .ok inv =>
    match loadTable env.remoteHist env.localHist [] with
    | .error e => .error e
    | .ok hist => .ok (inv, hist)

/-- `load_data` viewed as an operation on the outside world: it reads the
remote blobs and the local files but writes nothing, so the world component
is returned unchanged. -/
def loadOp (w : LoadEnv) :
    Except ParseError (List InventoryItem × List TransactionRecord) × LoadEnv :=
  (load_data w, w)

/-- How the remote half of `save_data` plays out, as an oracle for the
external GitHub collaborator: not configured (local mode); both blob writes
succeed; an exception during the inventory blob write (nothing pushed); or an
exception during the history blob write (inventory blob already pushed).
Any such exception is caught by the surrounding `except Exception` and shown
with `st.error`. -/
inductive RemoteStatus where
  | notConfigured
  | willSucceed
  | failAtInv (msg : String)
  | failAtHist (msg : String)
deriving DecidableEq, Repr

/-- The outside world `save_data` touches: the two local CSV files, the two
remote blobs, and the oracle describing the remote interaction. -/
structure SaveWorld where
  localInvFile : Option (List InventoryItem)
  localHistFile : Option (List TransactionRecord)
  remoteInvBlob : Option (List InventoryItem)
  remoteHistBlob : Option (List TransactionRecord)
  remote : RemoteStatus
deriving DecidableEq, Repr

/-- What a call to `save_data` leaves behind: the updated world, whether the
GitHub 동기화 실패 warning was shown (`st.error`), and whether the synced
toast was shown. -/
structure SaveResult where
  world : SaveWorld
  warningShown : Bool
  syncedRemotely : Bool
deriving DecidableEq, Repr

/-- `save_data`: step 1 writes both tables to the local CSV files
unconditionally, before any remote interaction; step 2 pushes both blobs to
GitHub when configured, and any exception there is caught and surfaced as a
warning only — the local writes are never rolled back. -/
def save_data (w : SaveWorld) (inv : List InventoryItem)
    (hist : List TransactionRecord) : SaveResult :=
  let w₁ := { w with localInvFile := some inv, localHistFile := some hist }
  match w.remote with
  | .notConfigured => ⟨w₁, false, false⟩
  | .willSucceed =>
    ⟨{ w₁ with remoteInvBlob := some inv, remoteHistBlob := some hist }, false, true⟩
  | .failAtInv _ => ⟨w₁, true, false⟩
  | .failAtHist _ => ⟨{ w₁ with remoteInvBlob := some inv }, true, false⟩

/-- The whole submitted branch of the posting form: run the posting against
the session state; on success store the mutated tables back into the session
state and call `save_data` with them; on any error leave the session state
alone and call nothing. -/
def postAndSave (w : SaveWorld) (st : PostState) (p : PostingInput) :
    PostState × Option SaveResult :=
  match post st p.kind p.client p.title p.quantity p.now with
  | .error _ => (st, none)
  | .ok (st', _, _) => (st', some (save_data w st'.inventory st'.history))

/-! ### Basic lemmas about first-match lookup and update -/

theorem lookupTitle_nil (t : String) : lookupTitle [] t = none := rfl

theorem lookupTitle_cons (x : InventoryItem) (rest : List InventoryItem) (t : String) :
    lookupTitle (x :: rest) t = if x.title == t then some x else lookupTitle rest t := by
  have h2 : ∀ (inv : List InventoryItem), lookupTitle inv t =
      match firstMatchIdx inv t with
      | some i => inv.get? i
      | none => none := fun inv => rfl
  rw [h2 (x :: rest), h2 rest]
  have h1 : firstMatchIdx (x :: rest) t =
      if x.title == t then some 0 else (firstMatchIdx rest t).map (· + 1) := rfl
  rw [h1]
  cases hxt : x.title == t with
  | true => simp
  | false =>
    simp only [if_false, Bool.false_eq_true]
    cases hrest : firstMatchIdx rest t with
    | none => simp
    | some i => simp

theorem firstMatchIdx_get (inv : List InventoryItem) (t : String) :
    ∀ i, firstMatchIdx inv t = some i → ∃ r, inv.get? i = some r ∧ r.title = t := by
  induction inv with
  | nil => intro i h; simp [firstMatchIdx] at h
  | cons x rest ih =>
    intro i h
    unfold firstMatchIdx at h
    cases hxt : x.title == t with
    | true =>
      simp only [hxt, if_true] at h
      cases h
      exact ⟨x, rfl, by simpa using hxt⟩
    | false =>
      simp only [hxt, if_false, Bool.false_eq_true, Option.map_eq_some'] at h
      obtain ⟨i₀, hi₀, rfl⟩ := h
      obtain ⟨r, hr, hrt⟩ := ih i₀ hi₀
      exact ⟨r, by simpa using hr, hrt⟩

theorem firstMatchIdx_least (inv : List InventoryItem) (t : String) :
    ∀ i, firstMatchIdx inv t = some i →
      ∀ j, j < i → ∀ s, inv.get? j = some s → s.title ≠ t := by
  induction inv with
  | nil => intro i h; simp [firstMatchIdx] at h
  | cons x rest ih =>
    intro i h j hj s hs
    unfold firstMatchIdx at h
    cases hxt : x.title == t with
    | true =>
      simp only [hxt, if_true] at h
      cases h
      exact absurd hj (Nat.not_lt_zero j)
    | false =>
      simp only [hxt, if_false, Bool.false_eq_true, Option.map_eq_some'] at h
      obtain ⟨i₀, hi₀, rfl⟩ := h
      cases j with
      | zero =>
        simp only [List.get?_cons_zero, Option.some.injEq] at hs
        subst hs
        simpa using hxt
      | succ j₀ =>
        simp only [List.get?_cons_succ] at hs
        exact ih i₀ hi₀ j₀ (Nat.lt_of_succ_lt_succ hj) s hs

theorem lookupTitle_set_self (inv : List InventoryItem) (t : String) :
    ∀ i r r', firstMatchIdx inv t = some i → inv.get? i = some r →
      r'.title = r.title → lookupTitle (inv.set i r') t = some r' := by
  induction inv with
  | nil => intro i r r' h; simp [firstMatchIdx] at h
  | cons x rest ih =>
    intro i r r' h hget htitle
    unfold firstMatchIdx at h
    cases hxt : x.title == t with
    | true =>
      simp only [hxt, if_true] at h
      cases h
      simp only [List.get?_cons_zero, Option.some.injEq] at hget
      subst hget
      rw [List.set_cons_zero, lookupTitle_cons]
      have : r'.title == t := by rw [htitle]; exact hxt
      simp [this]
    | false =>
      simp only [hxt, if_false, Bool.false_eq_true, Option.map_eq_some'] at h
      obtain ⟨i₀, hi₀, rfl⟩ := h
      simp only [List.get?_cons_succ] at hget
      rw [List.set_cons_succ, lookupTitle_cons]
      simp only [hxt, if_false, Bool.false_eq_true]
      exact ih i₀ r r' hi₀ hget htitle

theorem lookupTitle_set_other (inv : List InventoryItem) (t t' : String) :
    ∀ i r r', firstMatchIdx inv t = some i → inv.get? i = some r →
      r'.title = r.title → t' ≠ t →
      lookupTitle (inv.set i r') t' = lookupTitle inv t' := by
  induction inv with
  | nil => intro i r r' h; simp [firstMatchIdx] at h
  | cons x rest ih =>
    intro i r r' h hget htitle hne
    unfold firstMatchIdx at h
    cases hxt : x.title == t with
    | true =>
      simp only [hxt, if_true] at h
      cases h
      simp only [List.get?_cons_zero, Option.some.injEq] at hget
      subst hget
      rw [List.set_cons_zero, lookupTitle_cons, lookupTitle_cons, htitle]
      have hx : x.title = t := by simpa using hxt
      have hxt' : (x.title == t') = false := by
        rw [hx]
        exact beq_eq_false_iff_ne.mpr (Ne.symm hne)
      simp [hxt']
    | false =>
      simp only [hxt, if_false, Bool.false_eq_true, Option.map_eq_some'] at h
      obtain ⟨i₀, hi₀, rfl⟩ := h
      simp only [List.get?_cons_succ] at hget
      rw [List.set_cons_succ, lookupTitle_cons, lookupTitle_cons,
        ih i₀ r r' hi₀ hget htitle hne]

/-- The net movement for a title splits into the three per-kind sums. -/
theorem netForTitle_eq_sums (log : List TransactionRecord) (t : String) :
    netForTitle log t =
      sumKindTitle log .RECEIVE t + sumKindTitle log .RETURN t
        - sumKindTitle log .SHIP t := by
  induction log with
  | nil => simp [netForTitle, sumKindTitle]
  | cons r rest ih =>
    unfold netForTitle sumKindTitle
    rw [ih]
    cases hrt : r.title == t with
    | false => simp [hrt]
    | true =>
      cases hk : r.kind with
      | RECEIVE => simp [hrt, hk, signedQty]; ring
      | SHIP => simp [hrt, hk, signedQty]; ring
      | RETURN => simp [hrt, hk, signedQty]; ring

/-- Anatomy of a successful posting: the client field was non-empty, a first
matching row existed, the quantity arithmetic succeeded, and the new state is
exactly the one-cell update plus the prepended record. -/
theorem post_ok_elim (st : PostState) (k : TxKind) (c t : String) (q : Int)
    (now : String) (st' : PostState) (cur nq : Int)
    (h : post st k c t q now = .ok (st', cur, nq)) :
    c ≠ "" ∧ ∃ i r, firstMatchIdx st.inventory t = some i ∧
      st.inventory.get? i = some r ∧
      cur = r.on_hand_quantity ∧
      computeNewQty k r.on_hand_quantity q = .ok nq ∧
      st' = ⟨st.inventory.set i { r with on_hand_quantity := nq },
             ⟨now, c, t, k, q, r.unit_price⟩ :: st.history⟩ := by
  unfold post at h
  split at h
  · exact absurd h (by simp)
  next hc =>
    refine ⟨hc, ?_⟩
    split at h
    · exact absurd h (by simp)
    next i hidx =>
      split at h
      · exact absurd h (by simp)
      next r hget =>
        split at h
        · exact absurd h (by simp)
        next nq' hcn =>
          simp only [Except.ok.injEq, Prod.mk.injEq] at h
          obtain ⟨hst, hcur, hnq⟩ := h
          subst hnq
          exact ⟨i, r, hidx, hget, hcur.symm, hcn, hst.symm⟩

/-- The quantity a looked-up row would show, minus the net movement already
recorded in the log: the conserved quantity of the posting loop. -/
def balOf (st : PostState) (t : String) : Option Int :=
  (lookupTitle st.inventory t).map
    (fun r => r.on_hand_quantity - netForTitle st.history t)

theorem netForTitle_cons (r : TransactionRecord) (rest : List TransactionRecord)
    (t : String) :
    netForTitle (r :: rest) t =
      (if r.title == t then signedQty r else 0) + netForTitle rest t := rfl

/-- Processing one form — whether it succeeds or is rejected — never changes
any title's on-hand-minus-logged-net balance. -/
theorem applyPosting_bal (st : PostState) (p : PostingInput) (t : String) :
    balOf (applyPosting st p) t = balOf st t := by
  unfold applyPosting
  cases hpost : post st p.kind p.client p.title p.quantity p.now with
  | error e => rfl
  | ok out =>
    obtain ⟨st', cur, nq⟩ := out
    obtain ⟨hc, i, r, hidx, hget, hcur, hcn, hst'⟩ :=
      post_ok_elim st p.kind p.client p.title p.quantity p.now st' cur nq hpost
    subst hst'
    by_cases ht : p.title = t
    · subst ht
      have hlook : lookupTitle st.inventory p.title = some r := by
        unfold lookupTitle
        rw [hidx]
        exact hget
      have hlook' : lookupTitle
          (st.inventory.set i { r with on_hand_quantity := nq }) p.title =
          some { r with on_hand_quantity := nq } :=
        lookupTitle_set_self st.inventory p.title i r _ hidx hget rfl
      unfold balOf
      rw [hlook, hlook', netForTitle_cons]
      simp only [Option.map_some', Option.some.injEq]
      rw [if_pos (show (p.title == p.title) = true by simp)]
      cases hk : p.kind with
      | RECEIVE =>
        rw [hk] at hcn
        simp only [computeNewQty, Except.ok.injEq] at hcn
        simp only [signedQty, hk]
        rw [← hcn]
        ring
      | SHIP =>
        rw [hk] at hcn
        simp only [computeNewQty] at hcn
        split at hcn
        · exact absurd hcn (by simp)
        · simp only [Except.ok.injEq] at hcn
          simp only [signedQty, hk]
          rw [← hcn]
          ring
      | RETURN =>
        rw [hk] at hcn
        simp only [computeNewQty, Except.ok.injEq] at hcn
        simp only [signedQty, hk]
        rw [← hcn]
        ring
    · have hlook' : lookupTitle
          (st.inventory.set i { r with on_hand_quantity := nq }) t =
          lookupTitle st.inventory t :=
        lookupTitle_set_other st.inventory p.title t i r _ hidx hget rfl (Ne.symm ht)
      unfold balOf
      rw [hlook', netForTitle_cons]
      have hbt : (p.title == t) = false := beq_eq_false_iff_ne.mpr ht
      rw [hbt]
      simp

/-- Replaying any sequence of forms preserves every title's balance. -/
theorem replay_bal (ps : List PostingInput) :
    ∀ (st : PostState) (t : String), balOf (replay st ps) t = balOf st t := by
  induction ps with
  | nil => intro st t; rfl
  | cons p rest ih =>
    intro st t
    show balOf (replay (applyPosting st p) rest) t = balOf st t
    rw [ih (applyPosting st p) t, applyPosting_bal]

/-- Processing one form with a non-negative quantity keeps every row's
on-hand quantity non-negative: receives and returns only add, and a ship is
either rejected or leaves a non-negative remainder. -/
theorem applyPosting_nonneg (st : PostState) (p : PostingInput)
    (hq : 0 ≤ p.quantity)
    (h : ∀ s ∈ st.inventory, 0 ≤ s.on_hand_quantity) :
    ∀ s ∈ (applyPosting st p).inventory, 0 ≤ s.on_hand_quantity := by
  unfold applyPosting
  cases hpost : post st p.kind p.client p.title p.quantity p.now with
  | error e => exact h
  | ok out =>
    obtain ⟨st', cur, nq⟩ := out
    obtain ⟨hc, i, r, hidx, hget, hcur, hcn, hst'⟩ :=
      post_ok_elim st p.kind p.client p.title p.quantity p.now st' cur nq hpost
    subst hst'
    intro s hs
    rcases List.mem_or_eq_of_mem_set hs with hmem | hset
    · exact h s hmem
    · subst hset
      show 0 ≤ nq
      have hr : 0 ≤ r.on_hand_quantity := h r (List.get?_mem hget)
      cases hk : p.kind with
      | RECEIVE =>
        rw [hk] at hcn
        simp only [computeNewQty, Except.ok.injEq] at hcn
        omega
      | SHIP =>
        rw [hk] at hcn
        simp only [computeNewQty] at hcn
        split at hcn
        · exact absurd hcn (by simp)
        next hlt =>
          simp only [Except.ok.injEq] at hcn
          omega
      | RETURN =>
        rw [hk] at hcn
        simp only [computeNewQty, Except.ok.injEq] at hcn
        omega

/-- Replay preserves non-negativity of every row when all submitted
quantities are non-negative. -/
theorem replay_nonneg (ps : List PostingInput) :
    ∀ (st : PostState), (∀ p ∈ ps, 0 ≤ p.quantity) →
      (∀ s ∈ st.inventory, 0 ≤ s.on_hand_quantity) →
      ∀ s ∈ (replay st ps).inventory, 0 ≤ s.on_hand_quantity := by
  induction ps with
  | nil => intro st _ h; exact h
  | cons p rest ih =>
    intro st hq h
    show ∀ s ∈ (replay (applyPosting st p) rest).inventory, 0 ≤ s.on_hand_quantity
    exact ih (applyPosting st p)
      (fun p' hp' => hq p' (List.mem_cons_of_mem p hp'))
      (applyPosting_nonneg st p (hq p (List.mem_cons_self p rest)) h)

/-! ### Claim theorems -/

/-- C1: a SHIP posting whose quantity exceeds the on-hand quantity of the
selected title's row fails with InsufficientStock, and causes no mutation:
the session state — inventory row, transaction log, and log length — is
exactly what it was before. -/
theorem ship_insufficient_no_mutation (st : PostState) (client title : String)
    (q : Int) (now : String) (r : InventoryItem)
    (hc : client ≠ "")
    (hr : lookupTitle st.inventory title = some r)
    (hq : r.on_hand_quantity < q) :
    post st .SHIP client title q now = .error .InsufficientStock ∧
    applyPosting st ⟨.SHIP, client, title, q, now⟩ = st ∧
    (applyPosting st ⟨.SHIP, client, title, q, now⟩).inventory = st.inventory ∧
    (applyPosting st ⟨.SHIP, client, title, q, now⟩).history = st.history ∧
    (applyPosting st ⟨.SHIP, client, title, q, now⟩).history.length
      = st.history.length := by
  obtain ⟨i, hidx, hget⟩ : ∃ i, firstMatchIdx st.inventory title = some i ∧
      st.inventory.get? i = some r := by
    unfold lookupTitle at hr
    cases hidx : firstMatchIdx st.inventory title with
    | none => rw [hidx] at hr; exact absurd hr (by simp)
    | some i => rw [hidx] at hr; exact ⟨i, rfl, hr⟩
  have hpost : post st .SHIP client title q now = .error .InsufficientStock := by
    unfold post
    rw [if_neg hc, hidx]
    simp only [hget, computeNewQty]
    rw [if_pos hq]
  have happ : applyPosting st ⟨.SHIP, client, title, q, now⟩ = st := by
    unfold applyPosting
    simp only [hpost]
  exact ⟨hpost, happ, by rw [happ], by rw [happ], by rw [happ]⟩

/-- C2: replaying any sequence of submitted postings against an initial
inventory (with an empty log) leaves each title's on-hand quantity equal to
its initial quantity plus the logged RECEIVE and RETURN sums minus the logged
SHIP sum — the log holding exactly the successful postings — and, when every
submitted quantity is non-negative and the initial quantities are
non-negative, no row is ever driven negative. -/
theorem replay_net_invariant (inv0 : List InventoryItem) (ps : List PostingInput)
    (t : String) (r : InventoryItem)
    (hq : ∀ p ∈ ps, 0 ≤ p.quantity)
    (h0 : ∀ s ∈ inv0, 0 ≤ s.on_hand_quantity)
    (hr : lookupTitle inv0 t = some r) :
    (∃ r', lookupTitle (replay ⟨inv0, []⟩ ps).inventory t = some r' ∧
      r'.on_hand_quantity =
        r.on_hand_quantity
          + sumKindTitle (replay ⟨inv0, []⟩ ps).history .RECEIVE t
          + sumKindTitle (replay ⟨inv0, []⟩ ps).history .RETURN t
          - sumKindTitle (replay ⟨inv0, []⟩ ps).history .SHIP t) ∧
    (∀ s ∈ (replay ⟨inv0, []⟩ ps).inventory, 0 ≤ s.on_hand_quantity) := by
  constructor
  · have hbal := replay_bal ps ⟨inv0, []⟩ t
    unfold balOf at hbal
    rw [hr] at hbal
    cases hlook : lookupTitle (replay ⟨inv0, []⟩ ps).inventory t with
    | none => rw [hlook] at hbal; exact absurd hbal (by simp)
    | some r' =>
      rw [hlook] at hbal
      simp only [Option.map_some', Option.some.injEq] at hbal
      refine ⟨r', rfl, ?_⟩
      have hnet := netForTitle_eq_sums (replay ⟨inv0, []⟩ ps).history t
      have hnil : netForTitle (⟨inv0, []⟩ : PostState).history t = 0 := rfl
      rw [hnil] at hbal
      omega
  · exact replay_nonneg ps ⟨inv0, []⟩ hq h0

/-- C6: a successful posting prepends exactly one record to the log, so the
log stays newest-first and grows by one; and whether a posting succeeds or
fails, every previously written log record survives unchanged (the old log
is a suffix of the new one) and no inventory row is deleted. -/
theorem post_append_only (st : PostState) (p : PostingInput) :
    (∀ st' cur nq,
      post st p.kind p.client p.title p.quantity p.now = .ok (st', cur, nq) →
      ∃ rec, st'.history = rec :: st.history ∧
        st'.history.length = st.history.length + 1) ∧
    (∃ pre, (applyPosting st p).history = pre ++ st.history) ∧
    (applyPosting st p).inventory.length = st.inventory.length := by
  refine ⟨?_, ?_, ?_⟩
  · intro st' cur nq h
    obtain ⟨hc, i, r, hidx, hget, hcur, hcn, hst'⟩ :=
      post_ok_elim st p.kind p.client p.title p.quantity p.now st' cur nq h
    subst hst'
    exact ⟨_, rfl, rfl⟩
  · unfold applyPosting
    cases hpost : post st p.kind p.client p.title p.quantity p.now with
    | error e => exact ⟨[], rfl⟩
    | ok out =>
      obtain ⟨st', cur, nq⟩ := out
      obtain ⟨hc, i, r, hidx, hget, hcur, hcn, hst'⟩ :=
        post_ok_elim st p.kind p.client p.title p.quantity p.now st' cur nq hpost
      subst hst'
      exact ⟨[⟨p.now, p.client, p.title, p.kind, p.quantity, r.unit_price⟩], rfl⟩
  · unfold applyPosting
    cases hpost : post st p.kind p.client p.title p.quantity p.now with
    | error e => rfl
    | ok out =>
      obtain ⟨st', cur, nq⟩ := out
      obtain ⟨hc, i, r, hidx, hget, hcur, hcn, hst'⟩ :=
        post_ok_elim st p.kind p.client p.title p.quantity p.now st' cur nq hpost
      subst hst'
      exact List.length_set st.inventory i _

/-- C7: the record written by a successful posting carries the item's
unit price as of posting time, and that copy is frozen: however the
inventory table is later replaced (in particular by a price change) and
however many further postings run, the old record sits unchanged in the
log. -/
theorem unit_price_copied (st : PostState) (k : TxKind) (c t : String) (q : Int)
    (now : String) (r : InventoryItem) (st' : PostState) (cur nq : Int)
    (hr : lookupTitle st.inventory t = some r)
    (h : post st k c t q now = .ok (st', cur, nq)) :
    ∃ rec, st'.history = rec :: st.history ∧ rec.unit_price = r.unit_price ∧
      ∀ (inv₂ : List InventoryItem) (p₂ : PostingInput),
        ∃ pre, (applyPosting ⟨inv₂, st'.history⟩ p₂).history
          = pre ++ rec :: st.history := by
  obtain ⟨hc, i, r₀, hidx, hget, hcur, hcn, hst'⟩ :=
    post_ok_elim st k c t q now st' cur nq h
  have hr₀ : r₀ = r := by
    unfold lookupTitle at hr
    rw [hidx] at hr
    have : st.inventory.get? i = some r := hr
    rw [hget] at this
    exact (Option.some.injEq _ _ ▸ this)
  subst hr₀
  subst hst'
  refine ⟨_, rfl, rfl, ?_⟩
  intro inv₂ p₂
  unfold applyPosting
  cases hpost : post ⟨inv₂, _⟩ p₂.kind p₂.client p₂.title p₂.quantity p₂.now with
  | error e => exact ⟨[], rfl⟩
  | ok out =>
    obtain ⟨st₂, cur₂, nq₂⟩ := out
    obtain ⟨hc₂, i₂, r₂, hidx₂, hget₂, hcur₂, hcn₂, hst₂⟩ :=
      post_ok_elim _ p₂.kind p₂.client p₂.title p₂.quantity p₂.now st₂ cur₂ nq₂ hpost
    subst hst₂
    exact ⟨[⟨p₂.now, p₂.client, p₂.title, p₂.kind, p₂.quantity, r₂.unit_price⟩], rfl⟩

/-- C8: the low-stock alert lists exactly the inventory rows whose on-hand
quantity is at most the safety threshold (inclusive boundary): a row with
on-hand 10 and threshold 10 is flagged, a row with on-hand 11 and threshold
10 is not. -/
theorem low_stock_alert_iff :
    (∀ (inv : List InventoryItem) (r : InventoryItem),
      r ∈ lowStockAlert inv ↔
        r ∈ inv ∧ r.on_hand_quantity ≤ r.safety_stock_threshold) ∧
    lowStockAlert [⟨"경계도서", 1000, "isbn-1", 10, 10⟩]
      = [⟨"경계도서", 1000, "isbn-1", 10, 10⟩] ∧
    lowStockAlert [⟨"여유도서", 1000, "isbn-2", 11, 10⟩] = [] := by
  refine ⟨?_, by decide, by decide⟩
  intro inv r
  simp [lowStockAlert, List.mem_filter]

/-- A client name appears in the grouped table's index exactly when some log
record names that client. -/
theorem mem_clientsOf (log : List TransactionRecord) (c : String) :
    c ∈ clientsOf log ↔ ∃ rec ∈ log, rec.client_name = c := by
  induction log with
  | nil => simp [clientsOf]
  | cons r rest ih =>
    show c ∈ (if r.client_name ∈ clientsOf rest then clientsOf rest
        else r.client_name :: clientsOf rest) ↔ _
    by_cases hm : r.client_name ∈ clientsOf rest
    · rw [if_pos hm, ih]
      constructor
      · rintro ⟨rec, hrec, hrc⟩
        exact ⟨rec, List.mem_cons_of_mem r hrec, hrc⟩
      · rintro ⟨rec, hrec, hrc⟩
        rcases List.mem_cons.mp hrec with hre | hre
        · subst hre
          rw [hrc] at hm
          obtain ⟨rec', h1, h2⟩ := ih.mp hm
          exact ⟨rec', h1, h2⟩
        · exact ⟨rec, hre, hrc⟩
    · rw [if_neg hm]
      simp only [List.mem_cons, ih]
      constructor
      · rintro (hc | ⟨rec, hrec, hrc⟩)
        · exact ⟨r, Or.inl rfl, hc.symm⟩
        · exact ⟨rec, Or.inr hrec, hrc⟩
      · rintro ⟨rec, hrec | hrec, hrc⟩
        · subst hrec
          exact Or.inl hrc.symm
        · exact Or.inr ⟨rec, hrec, hrc⟩

/-- A three-record log exercising the 거래처별 반품률 view: client A서점
ships 100 and is returned 5, client B서점 never ships but is returned 3. -/
def c3Log : List TransactionRecord :=
  [⟨"2025-01-02 10:00:00", "A서점", "인하의 역사", .SHIP, 100, 15000⟩,
   ⟨"2025-01-03 10:00:00", "A서점", "인하의 역사", .RETURN, 5, 15000⟩,
   ⟨"2025-01-04 10:00:00", "B서점", "인하의 역사", .RETURN, 3, 15000⟩]

/-- C3 counterexample: client B서점 has SHIP sum 0 yet is NOT excluded from
the rate table — the view reports it with 반품률 0 (the `else 0` branch of
the rate lambda), so the claim's exclusion clause is false on the code. -/
theorem returnRate_no_ship_client_shown :
    sumKindClient c3Log "B서점" .SHIP = 0 ∧
    ("B서점", (0 : Int), (3 : Int), (0 : Rat)) ∈ returnRateTable c3Log ∧
    ¬ (∀ row ∈ returnRateTable c3Log, row.1 ≠ "B서점") := by decide

/-- C3 amended: when the log contains at least one SHIP record, the rate
table has a row for every client of the log; a client whose SHIP sum is
positive is reported with rate RETURN-sum / SHIP-sum × 100, and a client
whose SHIP sum is 0 is still reported, with rate 0. -/
theorem returnRate_code_behavior (log : List TransactionRecord) (c : String)
    (hc : ∃ rec ∈ log, rec.client_name = c)
    (hs : ∃ rec ∈ log, rec.kind = TxKind.SHIP) :
    ∃ rate : Rat,
      (c, sumKindClient log c .SHIP, sumKindClient log c .RETURN, rate)
        ∈ returnRateTable log ∧
      (0 < sumKindClient log c .SHIP →
        rate = (sumKindClient log c .RETURN : Rat)
          / (sumKindClient log c .SHIP : Rat) * 100) ∧
      (sumKindClient log c .SHIP = 0 → rate = 0) := by
  have hany : log.any (fun r => r.kind == TxKind.SHIP) = true := by
    rw [List.any_eq_true]
    obtain ⟨rec, h1, h2⟩ := hs
    exact ⟨rec, h1, by simp [h2]⟩
  have hcm : c ∈ clientsOf log := (mem_clientsOf log c).mpr hc
  refine ⟨(returnRateRow log c).2.2.2, ?_, ?_, ?_⟩
  · unfold returnRateTable
    rw [if_pos hany]
    exact List.mem_map_of_mem (returnRateRow log) hcm
  · intro hpos
    show (if 0 < sumKindClient log c .SHIP then
        (sumKindClient log c .RETURN : Rat) / (sumKindClient log c .SHIP : Rat) * 100
      else 0) = _
    rw [if_pos hpos]
  · intro hzero
    show (if 0 < sumKindClient log c .SHIP then
        (sumKindClient log c .RETURN : Rat) / (sumKindClient log c .SHIP : Rat) * 100
      else 0) = 0
    rw [if_neg]
    rw [hzero]
    exact lt_irrefl 0

/-- The single-table fallback chain succeeds whenever failing over to the
local file does not hit a corrupt file. -/
theorem loadTable_ok {α : Type} (remote : Option α) (loc : LocalFile α) (seed : α)
    (h : remote = none → localCorrupt loc = false) :
    ∃ t, loadTable remote loc seed = .ok t := by
  cases remote with
  | some t => exact ⟨t, rfl⟩
  | none =>
    cases loc with
    | absent => exact ⟨seed, rfl⟩
    | present parsed =>
      cases parsed with
      | ok t => exact ⟨t, rfl⟩
      | error e => exact absurd (h rfl) (by simp [localCorrupt])

/-- The single-table fallback chain raises only out of a present-but-corrupt
local file, and then raises exactly that parse error. -/
theorem loadTable_error {α : Type} (remote : Option α) (loc : LocalFile α)
    (seed : α) (e : ParseError) (h : loadTable remote loc seed = .error e) :
    remote = none ∧ loc = .present (.error e) := by
  cases remote with
  | some t => exact absurd h (by simp [loadTable])
  | none =>
    cases loc with
    | absent => exact absurd h (by simp [loadTable])
    | present parsed =>
      cases parsed with
      | ok t => exact absurd h (by simp [loadTable])
      | error e' =>
        have : e' = e := by simpa [loadTable] using h
        exact ⟨rfl, by rw [this]⟩

/-- `load_data` succeeds exactly when both per-table chains succeed, with the
two results paired. -/
theorem load_data_ok_iff (env : LoadEnv) (inv : List InventoryItem)
    (hist : List TransactionRecord) :
    load_data env = .ok (inv, hist) ↔
      loadTable env.remoteInv env.localInv seedInventory = .ok inv ∧
      loadTable env.remoteHist env.localHist [] = .ok hist := by
  unfold load_data
  cases h1 : loadTable env.remoteInv env.localInv seedInventory with
  | error e => simp
  | ok inv' =>
    cases h2 : loadTable env.remoteHist env.localHist [] with
    | error e => simp
    | ok hist' => simp [and_comm, eq_comm]

/-- C4: `load_data` returns two fully-initialized tables whenever neither
local fallback hits a corrupt file — in particular absent remote blobs and
absent local files never raise; any raised error pinpoints a
present-but-unparseable local file reached after its remote fetch failed;
and each table's result depends only on its own sources, so a failed fetch
of one table never changes what the other loads. -/
theorem load_data_contract (env : LoadEnv) :
    ((env.remoteInv = none → localCorrupt env.localInv = false) →
     (env.remoteHist = none → localCorrupt env.localHist = false) →
     ∃ inv hist, load_data env = .ok (inv, hist)) ∧
    (∀ e, load_data env = .error e →
      (env.remoteInv = none ∧ env.localInv = .present (.error e)) ∨
      (env.remoteHist = none ∧ env.localHist = .present (.error e))) ∧
    (∀ env' : LoadEnv, env'.remoteHist = env.remoteHist →
      env'.localHist = env.localHist →
      ∀ inv hist inv' hist', load_data env = .ok (inv, hist) →
        load_data env' = .ok (inv', hist') → hist' = hist) ∧
    (∀ env' : LoadEnv, env'.remoteInv = env.remoteInv →
      env'.localInv = env.localInv →
      ∀ inv hist inv' hist', load_data env = .ok (inv, hist) →
        load_data env' = .ok (inv', hist') → inv' = inv) := by
  refine ⟨?_, ?_, ?_, ?_⟩
  · intro h1 h2
    obtain ⟨inv, hinv⟩ := loadTable_ok env.remoteInv env.localInv seedInventory h1
    obtain ⟨hist, hhist⟩ := loadTable_ok env.remoteHist env.localHist [] h2
    exact ⟨inv, hist, (load_data_ok_iff env inv hist).mpr ⟨hinv, hhist⟩⟩
  · intro e h
    unfold load_data at h
    cases h1 : loadTable env.remoteInv env.localInv seedInventory with
    | error e1 =>
      rw [h1] at h
      have he : e1 = e := by simpa using h
      exact Or.inl (loadTable_error _ _ _ e (he ▸ h1))
    | ok inv =>
      rw [h1] at h
      cases h2 : loadTable env.remoteHist env.localHist [] with
      | error e2 =>
        rw [h2] at h
        have he : e2 = e := by simpa using h
        exact Or.inr (loadTable_error _ _ _ e (he ▸ h2))
      | ok hist =>
        rw [h2] at h
        exact absurd h (by simp)
  · intro env' hre hle inv hist inv' hist' hok hok'
    have h1 := ((load_data_ok_iff env inv hist).mp hok).2
    have h2 := ((load_data_ok_iff env' inv' hist').mp hok').2
    rw [hre, hle, h1] at h2
    simpa using h2.symm
  · intro env' hre hle inv hist inv' hist' hok hok'
    have h1 := ((load_data_ok_iff env inv hist).mp hok).1
    have h2 := ((load_data_ok_iff env' inv' hist').mp hok').1
    rw [hre, hle, h1] at h2
    simpa using h2.symm

/-- C9: `load_data` only reads — the world is unchanged — so running it a
second time with no intervening save and no external change yields tables
equal in content to the first run's. -/
theorem load_idempotent (w : LoadEnv) :
    (loadOp w).2 = w ∧ (loadOp (loadOp w).2).1 = (loadOp w).1 :=
  ⟨rfl, rfl⟩

/-- C5: `save_data` writes both tables to the local files unconditionally —
whatever the remote oracle says, including when there is no remote at all —
and a remote failure is non-fatal: it only sets the warning flag, the local
writes stand, and the posting flow's in-memory state is exactly the posted
state regardless of the save outcome. -/
theorem save_local_first_remote_nonfatal (w : SaveWorld)
    (inv : List InventoryItem) (hist : List TransactionRecord) :
    (save_data w inv hist).world.localInvFile = some inv ∧
    (save_data w inv hist).world.localHistFile = some hist ∧
    (∀ m, w.remote = .failAtInv m ∨ w.remote = .failAtHist m →
      (save_data w inv hist).warningShown = true ∧
      (save_data w inv hist).syncedRemotely = false ∧
      (save_data w inv hist).world.localInvFile = some inv ∧
      (save_data w inv hist).world.localHistFile = some hist) ∧
    (∀ (st : PostState) (p : PostingInput),
      (postAndSave w st p).1 = applyPosting st p) := by
  refine ⟨?_, ?_, ?_, ?_⟩
  · unfold save_data
    cases w.remote <;> rfl
  · unfold save_data
    cases w.remote <;> rfl
  · intro m hm
    unfold save_data
    rcases hm with hm | hm <;> rw [hm] <;> exact ⟨rfl, rfl, rfl, rfl⟩
  · intro st p
    unfold postAndSave applyPosting
    cases hpost : post st p.kind p.client p.title p.quantity p.now with
    | error e => rfl
    | ok out =>
      obtain ⟨st', cur, nq⟩ := out
      rfl

/-- C10: a successful posting's only inventory effect is to overwrite the
on-hand quantity of the first row (lowest index) whose title matches: that
row keeps its title, unit price, ISBN and safety threshold; every row at a
different index — including any later row with the same title — is
untouched; no row is added or removed; and exactly one record is prepended
to the log. -/
theorem post_frame (st : PostState) (k : TxKind) (c t : String) (q : Int)
    (now : String) (i : Nat) (r : InventoryItem) (st' : PostState) (cur nq : Int)
    (hidx : firstMatchIdx st.inventory t = some i)
    (hget : st.inventory.get? i = some r)
    (h : post st k c t q now = .ok (st', cur, nq)) :
    (∃ r', st'.inventory.get? i = some r' ∧
      r'.title = r.title ∧ r'.unit_price = r.unit_price ∧ r'.isbn = r.isbn ∧
      r'.safety_stock_threshold = r.safety_stock_threshold ∧
      r'.on_hand_quantity = nq) ∧
    (∀ j, j ≠ i → st'.inventory.get? j = st.inventory.get? j) ∧
    (∀ j, j < i → ∀ s, st.inventory.get? j = some s → s.title ≠ t) ∧
    st'.inventory.length = st.inventory.length ∧
    (∃ rec, st'.history = rec :: st.history) := by
  obtain ⟨hc, i₀, r₀, hidx₀, hget₀, hcur, hcn, hst'⟩ :=
    post_ok_elim st k c t q now st' cur nq h
  have hi : i₀ = i := by
    rw [hidx] at hidx₀
    injection hidx₀ with hii
    exact hii.symm
  have hr : r₀ = r := by
    rw [hi, hget] at hget₀
    injection hget₀ with hrr
    exact hrr.symm
  rw [hi, hr] at hst'
  subst hst'
  have hlen : i < st.inventory.length := by
    by_contra hge
    rw [List.get?_eq_none.mpr (Nat.le_of_not_lt hge)] at hget
    exact absurd hget (by simp)
  refine ⟨⟨{ r with on_hand_quantity := nq }, ?_, rfl, rfl, rfl, rfl, rfl⟩, ?_, ?_, ?_, ⟨_, rfl⟩⟩
  · show (st.inventory.set i _).get? i = _
    rw [List.get?_set_eq_of_lt _ hlen]
  · intro j hj
    exact List.get?_set_ne _ st.inventory (fun he => hj he.symm)
  · exact firstMatchIdx_least st.inventory t i hidx
  · exact List.length_set st.inventory i _

/-! ### Concrete witnesses -/

/-- A fresh session: the seeded inventory and an empty log. -/
def wSt : PostState := ⟨seedInventory, []⟩

/-- A sample RECEIVE form against the fresh session. -/
def wReceive : PostingInput :=
  ⟨.RECEIVE, "인쇄소B", "인하의 역사", 20, "2025-01-06 09:00:00"⟩

/-- The session state after `wReceive` is posted against `wSt`. -/
def wStAfter : PostState :=
  ⟨[⟨"인하의 역사", 15000, "979-11-87", 70, 10⟩,
    ⟨"파이썬 정복", 25000, "979-11-99", 5, 10⟩],
   [⟨"2025-01-06 09:00:00", "인쇄소B", "인하의 역사", .RECEIVE, 20, 15000⟩]⟩

/-- C1 witness: shipping 10 copies of 파이썬 정복 (on hand: 5) out of the
fresh session is rejected with InsufficientStock and leaves the session
untouched. -/
theorem ship_insufficient_witness :
    (("서점A" : String) ≠ "" ∧
     lookupTitle wSt.inventory "파이썬 정복"
       = some ⟨"파이썬 정복", 25000, "979-11-99", 5, 10⟩ ∧
     (⟨"파이썬 정복", 25000, "979-11-99", 5, 10⟩ :
       InventoryItem).on_hand_quantity < (10 : Int)) ∧
    (post wSt .SHIP "서점A" "파이썬 정복" 10 "2025-01-05 09:00:00"
        = .error .InsufficientStock ∧
     applyPosting wSt ⟨.SHIP, "서점A", "파이썬 정복", 10, "2025-01-05 09:00:00"⟩
        = wSt ∧
     (applyPosting wSt
        ⟨.SHIP, "서점A", "파이썬 정복", 10, "2025-01-05 09:00:00"⟩).inventory
        = wSt.inventory ∧
     (applyPosting wSt
        ⟨.SHIP, "서점A", "파이썬 정복", 10, "2025-01-05 09:00:00"⟩).history
        = wSt.history ∧
     (applyPosting wSt
        ⟨.SHIP, "서점A", "파이썬 정복", 10, "2025-01-05 09:00:00"⟩).history.length
        = wSt.history.length) :=
  ⟨⟨by decide, by decide, by decide⟩,
   ship_insufficient_no_mutation wSt "서점A" "파이썬 정복" 10 "2025-01-05 09:00:00"
     ⟨"파이썬 정복", 25000, "979-11-99", 5, 10⟩ (by decide) (by decide) (by decide)⟩

/-- A sample posting sequence for the replay witness: ship 45, then receive
20 of 인하의 역사. -/
def c2Ps : List PostingInput :=
  [⟨.SHIP, "서점A", "인하의 역사", 45, "2025-01-05 09:00:00"⟩,
   ⟨.RECEIVE, "인쇄소B", "인하의 역사", 20, "2025-01-06 09:00:00"⟩]

/-- C2 witness: replaying a ship-then-receive sequence on the seeded
inventory satisfies the net-sum decomposition and keeps all rows
non-negative. -/
theorem replay_net_witness :
    ((∀ p ∈ c2Ps, 0 ≤ p.quantity) ∧
     (∀ s ∈ seedInventory, 0 ≤ s.on_hand_quantity) ∧
     lookupTitle seedInventory "인하의 역사"
       = some ⟨"인하의 역사", 15000, "979-11-87", 50, 10⟩) ∧
    ((∃ r', lookupTitle (replay ⟨seedInventory, []⟩ c2Ps).inventory "인하의 역사"
        = some r' ∧
      r'.on_hand_quantity =
        (⟨"인하의 역사", 15000, "979-11-87", 50, 10⟩ :
          InventoryItem).on_hand_quantity
          + sumKindTitle (replay ⟨seedInventory, []⟩ c2Ps).history .RECEIVE "인하의 역사"
          + sumKindTitle (replay ⟨seedInventory, []⟩ c2Ps).history .RETURN "인하의 역사"
          - sumKindTitle (replay ⟨seedInventory, []⟩ c2Ps).history .SHIP "인하의 역사") ∧
     (∀ s ∈ (replay ⟨seedInventory, []⟩ c2Ps).inventory, 0 ≤ s.on_hand_quantity)) :=
  ⟨⟨by decide, by decide, by decide⟩,
   replay_net_invariant seedInventory c2Ps "인하의 역사"
     ⟨"인하의 역사", 15000, "979-11-87", 50, 10⟩ (by decide) (by decide) (by decide)⟩

/-- C3 witness (amended claim): in the sample log, client A서점 with SHIP
sum 100 and RETURN sum 5 appears in the rate table with rate 5/100×100. -/
theorem returnRate_witness :
    ((∃ rec ∈ c3Log, rec.client_name = "A서점") ∧
     (∃ rec ∈ c3Log, rec.kind = TxKind.SHIP)) ∧
    (∃ rate : Rat,
      ("A서점", sumKindClient c3Log "A서점" .SHIP,
        sumKindClient c3Log "A서점" .RETURN, rate) ∈ returnRateTable c3Log ∧
      (0 < sumKindClient c3Log "A서점" .SHIP →
        rate = (sumKindClient c3Log "A서점" .RETURN : Rat)
          / (sumKindClient c3Log "A서점" .SHIP : Rat) * 100) ∧
      (sumKindClient c3Log "A서점" .SHIP = 0 → rate = 0)) :=
  ⟨⟨by decide, by decide⟩,
   returnRate_code_behavior c3Log "A서점" (by decide) (by decide)⟩

/-- C4 witness: with no remote and no local files, `load_data` still returns
two fully-initialized tables (the seeded pair). -/
theorem load_data_contract_witness :
    ∃ inv hist, load_data ⟨none, none, .absent, .absent⟩ = .ok (inv, hist) :=
  (load_data_contract ⟨none, none, .absent, .absent⟩).1
    (fun _ => rfl) (fun _ => rfl)

/-- C5 witness: saving the seeded tables while the remote push fails shows
the warning, reports no sync, and still leaves both local files written. -/
theorem save_nonfatal_witness :
    (save_data ⟨none, none, none, none, .failAtInv "network"⟩ seedInventory
      []).warningShown = true ∧
    (save_data ⟨none, none, none, none, .failAtInv "network"⟩ seedInventory
      []).syncedRemotely = false ∧
    (save_data ⟨none, none, none, none, .failAtInv "network"⟩ seedInventory
      []).world.localInvFile = some seedInventory ∧
    (save_data ⟨none, none, none, none, .failAtInv "network"⟩ seedInventory
      []).world.localHistFile = some [] :=
  (save_local_first_remote_nonfatal ⟨none, none, none, none, .failAtInv "network"⟩
    seedInventory []).2.2.1 "network" (Or.inl rfl)

/-- C6 witness: the sample RECEIVE posting succeeds and prepends exactly one
record to the log. -/
theorem post_append_only_witness :
    post wSt wReceive.kind wReceive.client wReceive.title wReceive.quantity
      wReceive.now = .ok (wStAfter, 50, 70) ∧
    ∃ rec, wStAfter.history = rec :: wSt.history ∧
      wStAfter.history.length = wSt.history.length + 1 :=
  ⟨by decide, (post_append_only wSt wReceive).1 wStAfter 50 70 (by decide)⟩

/-- C7 witness: the record written by the sample RECEIVE posting carries the
item's price 15000, and survives any later inventory change and posting. -/
theorem unit_price_copied_witness :
    ∃ rec, wStAfter.history = rec :: wSt.history ∧
      rec.unit_price = (⟨"인하의 역사", 15000, "979-11-87", 50, 10⟩ :
        InventoryItem).unit_price ∧
      ∀ (inv₂ : List InventoryItem) (p₂ : PostingInput),
        ∃ pre, (applyPosting ⟨inv₂, wStAfter.history⟩ p₂).history
          = pre ++ rec :: wSt.history :=
  unit_price_copied wSt .RECEIVE "인쇄소B" "인하의 역사" 20 "2025-01-06 09:00:00"
    ⟨"인하의 역사", 15000, "979-11-87", 50, 10⟩ wStAfter 50 70
    (by decide) (by decide)

/-- C8 witness: the boundary row with on-hand 10 and threshold 10 is
flagged by the alert view. -/
theorem low_stock_alert_witness :
    lowStockAlert [⟨"경계도서", 1000, "isbn-1", 10, 10⟩]
      = [⟨"경계도서", 1000, "isbn-1", 10, 10⟩] :=
  low_stock_alert_iff.2.1

/-- C10 witness: the sample RECEIVE posting rewrites only row 0's on-hand
quantity and prepends one record. -/
theorem post_frame_witness :
    ((∃ r', wStAfter.inventory.get? 0 = some r' ∧
      r'.title = (⟨"인하의 역사", 15000, "979-11-87", 50, 10⟩ :
        InventoryItem).title ∧
      r'.unit_price = (⟨"인하의 역사", 15000, "979-11-87", 50, 10⟩ :
        InventoryItem).unit_price ∧
      r'.isbn = (⟨"인하의 역사", 15000, "979-11-87", 50, 10⟩ :
        InventoryItem).isbn ∧
      r'.safety_stock_threshold = (⟨"인하의 역사", 15000, "979-11-87", 50, 10⟩ :
        InventoryItem).safety_stock_threshold ∧
      r'.on_hand_quantity = 70) ∧
    (∀ j, j ≠ 0 → wStAfter.inventory.get? j = wSt.inventory.get? j) ∧
    (∀ j, j < 0 → ∀ s, wSt.inventory.get? j = some s → s.title ≠ "인하의 역사") ∧
    wStAfter.inventory.length = wSt.inventory.length ∧
    (∃ rec, wStAfter.history = rec :: wSt.history)) :=
  post_frame wSt .RECEIVE "인쇄소B" "인하의 역사" 20 "2025-01-06 09:00:00" 0
    ⟨"인하의 역사", 15000, "979-11-87", 50, 10⟩ wStAfter 50 70
    (by decide) (by decide) (by decide)

end IMS
